import Mathlib

/-!
Verification development for the SERP-audit pipeline
(`src/serp_audit_app_phase4.0.py`).

The script works on the JSON decoded from the listings API, so the
embedding is built on a `Json` value type together with the Python
operations the script performs on it (`dict.get`, `[0]` indexing,
truthiness, `for` iteration).  Fallible Python expressions are embedded
in `Except PyErr`; a raised exception is an `Except.error`.
-/

namespace SerpAudit

/-- JSON values as decoded by `response.json()`.  Python `None` is
`null`; objects are association lists in document order (lookup takes
the first binding, matching dict semantics where keys are unique).
Numbers are modelled as rationals. -/
inductive Json where
  | null : Json
  | bool (b : Bool) : Json
  | num (q : ℚ) : Json
  | str (s : String) : Json
  | arr (elems : List Json) : Json
  | obj (fields : List (String × Json)) : Json

/-- Python exceptions that the modelled operations can raise. -/
inductive PyErr where
  | attributeError : PyErr
  | indexError : PyErr
  | typeError : PyErr
deriving DecidableEq

/-- Python truthiness of a JSON value (`if x:`): `None`, `False`, `0`,
`""`, `[]` and `{}` are falsy, everything else truthy. -/
def Json.truthy : Json → Bool
  | .null => false
  | .bool b => b
  | .num q => decide (q ≠ 0)
  | .str s => decide (s ≠ "")
  | .arr elems => !elems.isEmpty
  | .obj fields => !fields.isEmpty

/-- Python `d.get(key, default)`: on a dict, the stored value (even if
it is `None`) or the default; on any non-dict value an
`AttributeError` is raised. -/
def pyGetD (j : Json) (key : String) (default : Json) : Except PyErr Json :=
  match j with
  | .obj fields =>
    match fields.lookup key with
    | some v => .ok v
    | none => .ok default
  | _ => .error .attributeError

/-- Python `d.get(key)`: default `None`. -/
def pyGet (j : Json) (key : String) : Except PyErr Json :=
  pyGetD j key .null

/-- Python `x[0]`: first element of a list (IndexError when empty),
first character of a string, `TypeError`-style failure otherwise. -/
def pyIndex0 : Json → Except PyErr Json
  | .arr (x :: _) => .ok x
  | .arr [] => .error .indexError
  | .str s => if s.isEmpty then .error .indexError
              else .ok (.str (String.singleton s.front))
  | _ => .error .typeError

/-- Python `for x in xs`: lists yield their elements, strings their
characters, dicts their keys; anything else raises `TypeError`. -/
def pyIter : Json → Except PyErr (List Json)
  | .arr elems => .ok elems
  | .str s => .ok (s.data.map fun c => .str (String.singleton c))
  | .obj fields => .ok (fields.map fun p => .str p.1)
  | _ => .error .typeError

/-- Python `variations[i]` on a list of strings. -/
def pyListGet (xs : List String) (i : ℕ) : Except PyErr String :=
  match xs[i]? with
  | some v => .ok v
  | none => .error .indexError

/-- One normalized business record, the dict appended by
`format_results` (its `Query` cell is always the string
`variations[i]`; the other cells are whatever JSON value the item
lookups produced, `null` for a missing field). -/
structure Row where
  query : String
  businessName : Json
  address : Json
  phone : Json
  website : Json
  rating : Json
  totalReviews : Json

/-- Body of the inner loop of `format_results`: builds the row dict for
one item.  The `Query` cell (`variations[i]`) is evaluated first, then
the item lookups in source order. -/
def formatItem (variation : String) (item : Json) : Except PyErr Row := do
  let title ← pyGet item "title"
  let addressInfo ← pyGetD item "address_info" (.obj [])
  let address ← pyGet addressInfo "address"
  let phone ← pyGet item "phone_number"
  let siteLinks ← pyGetD item "site_links" (.obj [])
  let website ← pyGet siteLinks "site_link"
  let rating ← pyGet item "rating"
  let reviews ← pyGet item "reviews_count"
  .ok ⟨variation, title, address, phone, website, rating, reviews⟩

/-- Lines 70–71 of the script:
`task_result = task.get("result", [{}])` and
`items = task_result[0].get("items", []) if task_result else []`,
followed by the `for item in items` iteration of the item collection. -/
def taskItems (task : Json) : Except PyErr (List Json) := do
  let taskResult ← pyGetD task "result" (.arr [.obj []])
  if taskResult.truthy then
    let first ← pyIndex0 taskResult
    let items ← pyGetD first "items" (.arr [])
    pyIter items
  else
    .ok []

/-- Inner `for item in items` loop: `variations[i]` is read once per
item (it is part of the appended dict literal). -/
def formatTaskItems (variations : List String) (i : ℕ) :
    List Json → Except PyErr (List Row)
  | [] => .ok []
  | item :: rest => do
    let v ← pyListGet variations i
    let row ← formatItem v item
    let more ← formatTaskItems variations i rest
    .ok (row :: more)

/-- Outer `for i, task in enumerate(tasks)` loop of `format_results`,
with `i` the running index. -/
def formatTasks (variations : List String) (i : ℕ) :
    List Json → Except PyErr (List Row)
  | [] => .ok []
  | task :: rest => do
    let items ← taskItems task
    let rows ← formatTaskItems variations i items
    let more ← formatTasks variations (i + 1) rest
    .ok (rows ++ more)

/-- The function `format_results(tasks, variations)` of the script,
given the decoded `tasks` list. -/
def format_results (tasks : List Json) (variations : List String) :
    Except PyErr (List Row) :=
  formatTasks variations 0 tasks

/-- Entry point as actually called: `tasks` is the raw JSON value found
under the `"tasks"` key, iterated by `enumerate`. -/
def formatResultsJson (tasks : Json) (variations : List String) :
    Except PyErr (List Row) := do
  let xs ← pyIter tasks
  format_results xs variations

/-! ### The structured data model (ListingTask / ListingItem)

The claims quantify over sequences of `ListingTask`; these structured
records encode to exactly the JSON shapes the API contract describes
(`{"tasks": [{"result": [{"items": [...]}]}]}`), with every field
optional. -/

/-- A source business record: all fields optional; the nested
`address_info` and `site_links` structures are optional objects. -/
structure ListingItem where
  title : Option Json := none
  addressInfo : Option (List (String × Json)) := none
  phoneNumber : Option Json := none
  siteLinks : Option (List (String × Json)) := none
  rating : Option Json := none
  reviewsCount : Option Json := none

/-- One entry of a task's `result` array, holding an optional item
list. -/
structure ResultEntry where
  items : Option (List ListingItem) := none

/-- One unit of the batched response: the `result` array may be absent
entirely. -/
structure ListingTask where
  result : Option (List ResultEntry) := none

/-- Helper: an optional JSON object field. -/
def optField (name : String) : Option Json → List (String × Json)
  | some v => [(name, v)]
  | none => []

/-- JSON encoding of a `ListingItem`. -/
def encodeItem (it : ListingItem) : Json :=
  .obj (optField "title" it.title ++
        optField "address_info" (it.addressInfo.map .obj) ++
        optField "phone_number" it.phoneNumber ++
        optField "site_links" (it.siteLinks.map .obj) ++
        optField "rating" it.rating ++
        optField "reviews_count" it.reviewsCount)

/-- JSON encoding of a `ResultEntry`. -/
def encodeResultEntry (re : ResultEntry) : Json :=
  .obj (optField "items" (re.items.map fun xs => .arr (xs.map encodeItem)))

/-- JSON encoding of a `ListingTask`. -/
def encodeTask (t : ListingTask) : Json :=
  .obj (optField "result"
    (t.result.map fun rs => .arr (rs.map encodeResultEntry)))

/-- The items a task contributes under the script's access pattern:
the `items` list of the first `result` entry, empty when `result` is
absent, empty, or its first entry has no items. -/
def taskItemsModel (t : ListingTask) : List ListingItem :=
  match t.result with
  | some (re :: _) => re.items.getD []
  | _ => []

/-- The row `format_results` builds from one item, with every missing
field yielding a `null` cell. -/
def rowOfItem (variation : String) (it : ListingItem) : Row :=
  { query := variation
    businessName := it.title.getD .null
    address := (((it.addressInfo.getD []).lookup "address").getD .null)
    phone := it.phoneNumber.getD .null
    website := (((it.siteLinks.getD []).lookup "site_link").getD .null)
    rating := it.rating.getD .null
    totalReviews := it.reviewsCount.getD .null }

/-- Reference flattening: one row per item of each task, `Query` taken
positionally from the variation list. -/
def flattenTasks (variations : List String) (i : ℕ) :
    List ListingTask → List Row
  | [] => []
  | t :: rest =>
    (taskItemsModel t).map (rowOfItem (variations.getD i "")) ++
      flattenTasks variations (i + 1) rest

/-! ### Query expansion -/

/-- The `variations` list built in the submit handler (lines 91–97):
five f-string templates, in order, no deduplication and no
normalization. -/
def variations (keyword city state : String) : List String :=
  [keyword,
   keyword ++ " near me",
   keyword ++ " " ++ city,
   keyword ++ " " ++ state,
   keyword ++ " " ++ city ++ " " ++ state]

/-! ### Numeric parsing and rendering

`pd.to_numeric(..., errors='coerce')` and the CSV layer both need a
model of decimal-numeral strings.  Numerals are read and written as
exact rationals. -/

/-- The character for a single decimal digit value. -/
def digitChar (d : ℕ) : Char := Char.ofNat (48 + d)

/-- Decimal digits of `n`, most significant first (empty for 0). -/
def natToChars (n : ℕ) : List Char :=
  ((Nat.digits 10 n).map digitChar).reverse

/-- Decimal digits of `n`, most significant first, `"0"` for 0. -/
def natToCharsZ (n : ℕ) : List Char :=
  if n = 0 then ['0'] else natToChars n

/-- Value of a big-endian digit string. -/
def charsToNat (cs : List Char) : ℕ :=
  cs.foldl (fun acc c => 10 * acc + (c.toNat - 48)) 0

/-- Parse an unsigned decimal numeral, integer part then optional
fraction (`"45"`, `"4.5"`, `"4."`, `".5"`), as a rational. -/
def parseUnsignedChars (cs : List Char) : Option ℚ :=
  let ip := cs.takeWhile Char.isDigit
  let rest := cs.dropWhile Char.isDigit
  match rest with
  | [] => if ip.isEmpty then none else some (charsToNat ip)
  | c :: fp =>
    if c = '.' then
      if fp.all Char.isDigit && !(ip.isEmpty && fp.isEmpty) then
        some ((charsToNat ip : ℚ) + (charsToNat fp : ℚ) / (10 : ℚ) ^ fp.length)
      else none
    else none

/-- Parse a decimal numeral with an optional leading minus sign: the
fragment of Python float-literal parsing that the pipeline's own
output exercises. -/
def parseNumChars (cs : List Char) : Option ℚ :=
  match cs with
  | [] => none
  | c :: rest =>
    if c = '-' then (parseUnsignedChars rest).map Neg.neg
    else parseUnsignedChars (c :: rest)

/-- String-level numeral parsing. -/
def parseNumQ (s : String) : Option ℚ := parseNumChars s.data

/-- Left-pad a digit string with zeros to the given length. -/
def padZeros (len : ℕ) (cs : List Char) : List Char :=
  List.replicate (len - cs.length) '0' ++ cs

/-- Render `n / 10^k` as an unsigned decimal numeral with `k`
fractional digits. -/
def renderScaledNat (n k : ℕ) : List Char :=
  if k = 0 then natToCharsZ n
  else
    let body := padZeros (k + 1) (natToCharsZ n)
    body.take (body.length - k) ++ '.' :: body.drop (body.length - k)

/-- Render `m / 10^k` as a signed decimal numeral. -/
def renderScaled (m : ℤ) (k : ℕ) : List Char :=
  if m < 0 then '-' :: renderScaledNat m.natAbs k else renderScaledNat m.natAbs k

/-- Smallest exponent within the search bound making `q * 10^k` an
integer: the decimal exponent of a decimal rational. -/
def decExp (q : ℚ) : Option ℕ :=
  (List.range (q.den + 1)).find? fun k => decide ((q * (10 : ℚ) ^ k).den = 1)

/-- Render a rational: decimal notation when a decimal exponent is
found (every value a JSON numeral produces), fraction notation as a
fallback. -/
def renderRat (q : ℚ) : List Char :=
  match decExp q with
  | some k => renderScaled (q * (10 : ℚ) ^ k).num k
  | none => renderScaled q.num 0 ++ '/' :: natToCharsZ q.den

/-! ### Tabular view: Rating coercion (line 106), filtering (136–138) -/

/-- One cell under `pd.to_numeric(..., errors='coerce')`: numerals pass
through, booleans become 0/1, numeric strings parse, everything else
(including `None`) becomes a missing value — never an error, never a
dropped row. -/
def to_numeric_coerce (cell : Json) : Json :=
  match cell with
  | .num q => .num q
  | .bool b => .num (if b then 1 else 0)
  | .str s =>
    match parseNumQ s with
    | some q => .num q
    | none => .null
  | _ => .null

/-- Line 106: `df['Rating'] = pd.to_numeric(df['Rating'], errors='coerce')`
applied to the loaded rows. -/
def loadTable (rows : List Row) : List Row :=
  rows.map fun r => { r with rating := to_numeric_coerce r.rating }

/-- Line 136: `df['Rating'] >= min_rating` — a missing (non-numeric)
rating compares false, as NaN does in pandas. -/
def ratingPasses (minRating : ℚ) (cell : Json) : Bool :=
  match cell with
  | .num q => decide (minRating ≤ q)
  | _ => false

/-- Line 138: `filtered_df['Website'].notna() & (filtered_df['Website'] != '')`. -/
def websitePresent (cell : Json) : Bool :=
  match cell with
  | .null => false
  | .str s => !(s == "")
  | _ => true

/-- Lines 136–138: rating filter, then the optional website filter. -/
def filterTable (df : List Row) (minRating : ℚ) (requireWebsite : Bool) : List Row :=
  let base := df.filter fun r => ratingPasses minRating r.rating
  if requireWebsite then base.filter fun r => websitePresent r.website else base

/-! ### The submit handler around the pipeline (lines 99–173) -/

/-- The persistent per-session slots `st.session_state["results"]` and
`st.session_state["summary"]` (queries, matches). -/
structure SessionState where
  results : Option (List Row)
  summary : Option (ℕ × ℕ)

/-- The user-visible outcome of one submitted run. -/
inductive Outcome where
  | apiError : Outcome
  | noData : Outcome
  | results (df : List Row) : Outcome
  | crash (e : PyErr) : Outcome

/-- Lines 99–173 as a state transformer: `fetchResult` is what
`fetch_audit_results` returned (`none` when the request failed and the
handler returned `None`).  The branch
`if response_json and response_json.get("tasks"):` guards the
pipeline; session state is written only when a non-empty row list was
produced. -/
def runSubmit (s : SessionState) (fetchResult : Option Json)
    (variations : List String) : SessionState × Outcome :=
  match fetchResult with
  | none => (s, .apiError)
  | some resp =>
    if resp.truthy then
      match pyGet resp "tasks" with
      | .error e => (s, .crash e)
      | .ok tasksVal =>
        if tasksVal.truthy then
          match formatResultsJson tasksVal variations with
          | .error e => (s, .crash e)
          | .ok rows =>
            if rows.isEmpty then (s, .noData)
            else
              let df := loadTable rows
              ({ results := some df, summary := some (variations.length, df.length) },
               .results df)
        else (s, .apiError)
    else (s, .apiError)

/-! ### CSV serialization (line 144, `filtered_df.to_csv(index=False)`)

The serializer follows the csv module's QUOTE_MINIMAL discipline that
pandas uses: a field is quoted exactly when it contains a delimiter,
quote, or line break, and quotes are doubled inside quoted fields.
The parser is the spec-level inverse used to state the round-trip
property; it is fuel-based, with the fuel chosen by `parseCsv`. -/

/-- Whether a field must be quoted (QUOTE_MINIMAL). -/
def needsQuote (cs : List Char) : Bool :=
  cs.any fun c => c == ',' || c == '"' || c == '\n' || c == '\r'

/-- Double every quote character. -/
def escapeChars : List Char → List Char
  | [] => []
  | c :: rest =>
    if c = '"' then '"' :: '"' :: escapeChars rest else c :: escapeChars rest

/-- Serialize one field, quoting when needed. -/
def renderField (cs : List Char) : List Char :=
  if needsQuote cs then '"' :: (escapeChars cs ++ ['"']) else cs

/-- Serialize one record, comma-separated. -/
def renderRecord : List (List Char) → List Char
  | [] => []
  | [f] => renderField f
  | f :: rest => renderField f ++ ',' :: renderRecord rest

/-- Serialize records, each terminated by a newline. -/
def renderCsv (records : List (List (List Char))) : List Char :=
  (records.map fun r => renderRecord r ++ ['\n']).flatten

/-- Python `str()` of a decoded JSON value, for cells that are not
scalars (never produced by a well-formed listings response; present
only so the serializer is total). -/
def pyReprJson : Json → List Char
  | .null => "None".data
  | .bool true => "True".data
  | .bool false => "False".data
  | .num q => renderRat q
  | .str s => Char.ofNat 39 :: s.data ++ [Char.ofNat 39]
  | .arr xs =>
    Char.ofNat 91 ::
      List.intercalate ", ".data (xs.attach.map fun x => pyReprJson x.1) ++
      [Char.ofNat 93]
  | .obj fs =>
    Char.ofNat 123 ::
      List.intercalate ", ".data
        (fs.attach.map fun f =>
          (Char.ofNat 39 :: f.1.1.data ++ [Char.ofNat 39]) ++ ": ".data ++
            pyReprJson f.1.2) ++
      [Char.ofNat 125]
decreasing_by
  · have h := List.sizeOf_lt_of_mem x.2
    simp only [Json.arr.sizeOf_spec]
    omega
  · have h := List.sizeOf_lt_of_mem f.2
    have h2 : sizeOf f.1.2 < sizeOf f.1 := by
      obtain ⟨⟨a, b⟩, hf⟩ := f
      simp only [Prod.mk.sizeOf_spec]
      omega
    simp only [Json.obj.sizeOf_spec]
    omega

/-- The text pandas writes for one cell: empty for a missing value,
the string itself, a decimal numeral for a number, `True`/`False` for
a boolean. -/
def cellToCsv (cell : Json) : List Char :=
  match cell with
  | .null => []
  | .str s => s.data
  | .num q => renderRat q
  | .bool true => "True".data
  | .bool false => "False".data
  | j => pyReprJson j

/-- The seven cells of a row in column order — exactly the dict-literal
keys of `format_results`: Query, Business Name, Address, Phone,
Website, Rating, Total Reviews. -/
def rowCells (r : Row) : List Json :=
  [.str r.query, r.businessName, r.address, r.phone, r.website, r.rating,
   r.totalReviews]

/-- The serialized fields of one data row. -/
def rowRecord (r : Row) : List (List Char) :=
  (rowCells r).map cellToCsv

/-- The header record. -/
def headerRecord : List (List Char) :=
  ["Query".data, "Business Name".data, "Address".data, "Phone".data,
   "Website".data, "Rating".data, "Total Reviews".data]

/-- Line 144: `filtered_df.to_csv(index=False)` — header row first,
then one line per data row. -/
def to_csv (df : List Row) : String :=
  ⟨renderCsv (headerRecord :: df.map rowRecord)⟩

/-- Parse the inside of a quoted field (after its opening quote):
doubled quotes collapse, a lone quote closes the field. -/
def parseQuotedF : List Char → Option (List Char × List Char)
  | [] => none
  | c :: rest =>
    if c = '"' then
      match rest with
      | d :: rest2 =>
        if d = '"' then (parseQuotedF rest2).map fun p => ('"' :: p.1, p.2)
        else some ([], rest)
      | [] => some ([], [])
    else (parseQuotedF rest).map fun p => (c :: p.1, p.2)

/-- Parse an unquoted field: everything up to a comma or newline. -/
def parseUnquotedF : List Char → (List Char × List Char)
  | [] => ([], [])
  | c :: rest =>
    if c = ',' || c = '\n' then ([], c :: rest)
    else
      let p := parseUnquotedF rest
      (c :: p.1, p.2)

/-- Parse one field, quoted or not. -/
def parseFieldF : List Char → Option (List Char × List Char)
  | [] => some ([], [])
  | c :: rest =>
    if c = '"' then parseQuotedF rest else some (parseUnquotedF (c :: rest))

/-- Parse one record up to and including its newline (fuel bounds the
number of fields). -/
def parseRecordF : ℕ → List Char → Option (List (List Char) × List Char)
  | 0, _ => none
  | fuel + 1, cs =>
    match parseFieldF cs with
    | none => none
    | some (f, rest) =>
      match rest with
      | [] => some ([f], [])
      | c :: r =>
        if c = ',' then (parseRecordF fuel r).map fun p => (f :: p.1, p.2)
        else if c = '\n' then some ([f], r)
        else none

/-- Parse a sequence of newline-terminated records (fuel bounds the
number of records). -/
def parseRecordsF : ℕ → List Char → Option (List (List (List Char)))
  | 0, _ => none
  | fuel + 1, cs =>
    if cs.isEmpty then some []
    else
      match parseRecordF (fuel + 1) cs with
      | none => none
      | some (fields, rest) => (parseRecordsF fuel rest).map fun rs => fields :: rs

/-- Parse a whole CSV text into its records; the fuel `length + 1`
always suffices. -/
def parseCsv (s : String) : Option (List (List (List Char))) :=
  parseRecordsF (s.data.length + 1) s.data

/-- What may legally follow a rendered field: nothing, a comma, or a
newline. -/
def sepHead (rest : List Char) : Prop :=
  rest = [] ∨ (∃ r, rest = ',' :: r) ∨ (∃ r, rest = '\n' :: r)

/-- Re-typing of one parsed CSV cell, as a reader with numeric
inference does: empty re-parses to missing, numerals to numbers,
anything else stays text. -/
def reparseCell (cs : List Char) : Json :=
  if cs.isEmpty then .null
  else
    match parseNumChars cs with
    | some q => .num q
    | none => .str ⟨cs⟩

/-- The type coercion the round-trip is stated modulo: absent values
re-parse to missing, numbers to themselves, strings to their numeric
reading when they have one (and empty text to missing). -/
def csvCoerce (cell : Json) : Json :=
  match cell with
  | .null => .null
  | .num q => .num q
  | .bool b => .str (if b then "True" else "False")
  | .str s =>
    if s = "" then .null
    else
      match parseNumQ s with
      | some q => .num q
      | none => .str s
  | _ => .null

/-- A cell the pipeline's data model can put in a table: missing,
text, boolean, or a decimal number (every JSON numeral is decimal;
`decExp` witnesses the exponent). -/
def scalarCell : Json → Prop
  | .null => True
  | .bool _ => True
  | .str _ => True
  | .num q => (decExp q).isSome = true
  | _ => False

/-- A row of scalar cells. -/
def scalarRow (r : Row) : Prop :=
  ∀ cell ∈ rowCells r, scalarCell cell

/-! ### Sample data used by the concrete witnesses -/

/-- A normalized row whose rating could not be parsed (coerced to
missing). -/
def wRow5 : Row :=
  { query := "plumber", businessName := .str "Acme", address := .null,
    phone := .null, website := .null, rating := .null, totalReviews := .null }

/-- A one-row table whose Rating cell holds non-numeric text. -/
def wRows5 : List Row := [{ wRow5 with rating := .str "not a number" }]

/-- A row with a passing rating but an empty-string website. -/
def wRowA : Row :=
  { query := "plumber", businessName := .str "A-Plumb", address := .null,
    phone := .null, website := .str "", rating := .num ((9 : ℚ) / 2),
    totalReviews := .null }

/-- A row with a low rating and a real website. -/
def wRowB : Row :=
  { query := "plumber", businessName := .str "B-Plumb", address := .null,
    phone := .null, website := .str "https://b.example", rating := .num 3,
    totalReviews := .null }

/-- A two-row table for the filter witness. -/
def wDf6 : List Row := [wRowA, wRowB]

/-- Two tasks: one with two items (one rated, one empty), one with no
result at all. -/
def wTasks2 : List ListingTask :=
  [{ result := some [{ items := some [{ rating := some (.num 4) }, {}] }] },
   { result := none }]

/-- Two variations covering the two tasks. -/
def wVars2 : List String := ["plumber", "plumber near me"]

/-- Site-link entries preceding the first site link. -/
def wPre3 : List (String × Json) := [("label", .str "main")]

/-- Site-link entries after the first site link. -/
def wPost3 : List (String × Json) := [("site_link", .str "https://dup.example")]

/-- An item exposing a site-links structure with a labelled entry, the
site link, and a second (ignored) link. -/
def wItem3 : ListingItem :=
  { siteLinks :=
      some (wPre3 ++ ("site_link", .str "https://a.example") :: wPost3) }

/-- A one-row table exercising quoting (comma, quote, newline in
cells), a decimal rating and an integer review count. -/
def wDf7 : List Row :=
  [{ query := "plumber",
     businessName := .str "Acme, \"The Best\" Plumbing",
     address := .str "1 Main St\nLos Angeles",
     phone := .null,
     website := .str "https://acme.example",
     rating := .num ((9 : ℚ) / 2),
     totalReviews := .num 27 }]

/-! ### Bridge lemmas: the embedded code on encoded structured inputs -/

/-- On an encoded task, the item-collection phase of `format_results`
never fails and yields exactly the encoded items of the first result
entry (or nothing). -/
theorem taskItems_encode (t : ListingTask) :
    taskItems (encodeTask t) = .ok ((taskItemsModel t).map encodeItem) := by
  obtain ⟨result⟩ := t
  match result with
  | none => rfl
  | some [] => rfl
  | some (re :: rest) =>
    obtain ⟨items⟩ := re
    match items with
    | none => rfl
    | some xs => rfl

/-- Bind of a successful Python step. -/
theorem ok_bind {α β : Type} (a : α) (f : α → Except PyErr β) :
    (Except.ok a : Except PyErr α) >>= f = f a := rfl

/-- Evaluation of `d.get(key, default)` on an object. -/
theorem pyGetD_obj (fields : List (String × Json)) (key : String) (d : Json) :
    pyGetD (.obj fields) key d = .ok ((fields.lookup key).getD d) := by
  cases h : fields.lookup key <;> simp [pyGetD, h]

/-- The six field lookups on an encoded item return exactly the
structured record's optional fields. -/
theorem encodeItem_lookups (it : ListingItem) :
    ∃ fields, encodeItem it = .obj fields ∧
      fields.lookup "title" = it.title ∧
      fields.lookup "address_info" = it.addressInfo.map Json.obj ∧
      fields.lookup "phone_number" = it.phoneNumber ∧
      fields.lookup "site_links" = it.siteLinks.map Json.obj ∧
      fields.lookup "rating" = it.rating ∧
      fields.lookup "reviews_count" = it.reviewsCount := by
  obtain ⟨title, addressInfo, phoneNumber, siteLinks, rating, reviewsCount⟩ := it
  cases title <;> cases addressInfo <;> cases phoneNumber <;>
    cases siteLinks <;> cases rating <;> cases reviewsCount <;>
    exact ⟨_, rfl, rfl, rfl, rfl, rfl, rfl, rfl⟩

/-- On an encoded item, the inner dict construction never fails and
produces exactly `rowOfItem`: present fields are copied, missing
fields yield `null` cells. -/
theorem formatItem_encode (v : String) (it : ListingItem) :
    formatItem v (encodeItem it) = .ok (rowOfItem v it) := by
  obtain ⟨fields, henc, h1, h2, h3, h4, h5, h6⟩ := encodeItem_lookups it
  rw [henc]
  cases hA : it.addressInfo <;> cases hS : it.siteLinks <;>
    rw [hA] at h2 <;> rw [hS] at h4 <;>
    simp [formatItem, pyGet, pyGetD_obj, h1, h2, h3, h4, h5, h6, ok_bind,
      rowOfItem, hA, hS]

/-- Reading `variations[i]` succeeds below the list length. -/
theorem pyListGet_lt (variations : List String) (i : ℕ)
    (hi : i < variations.length) :
    pyListGet variations i = .ok (variations.getD i "") := by
  simp [pyListGet, List.getElem?_eq_getElem hi, List.getD_eq_getElem _ _ hi]

/-- The inner item loop succeeds with one row per item whenever the
running task index is within the variation list. -/
theorem formatTaskItems_encode (variations : List String) (i : ℕ)
    (hi : i < variations.length) (xs : List ListingItem) :
    formatTaskItems variations i (xs.map encodeItem) =
      .ok (xs.map (rowOfItem (variations.getD i ""))) := by
  induction xs with
  | nil => rfl
  | cons x rest ih =>
    rw [List.map_cons, formatTaskItems]
    rw [pyListGet_lt variations i hi]
    simp only [ok_bind, formatItem_encode, ih, List.map_cons]

/-- The outer task loop on encoded tasks agrees with the reference
flattening whenever the variation list covers the task indices. -/
theorem formatTasks_encode (variations : List String) :
    ∀ (tasks : List ListingTask) (i : ℕ),
      i + tasks.length ≤ variations.length →
      formatTasks variations i (tasks.map encodeTask) =
        .ok (flattenTasks variations i tasks) := by
  intro tasks
  induction tasks with
  | nil => intro i _; rfl
  | cons t rest ih =>
    intro i hlen
    have hi : i < variations.length := by
      simp only [List.length_cons] at hlen; omega
    have hrest : i + 1 + rest.length ≤ variations.length := by
      simp only [List.length_cons] at hlen; omega
    rw [List.map_cons, formatTasks, taskItems_encode, flattenTasks]
    simp only [ok_bind, formatTaskItems_encode variations i hi,
      ih (i + 1) hrest]

/-- The Query cell of a produced row is the variation it was built
with. -/
theorem rowOfItem_query (v : String) (it : ListingItem) :
    (rowOfItem v it).query = v := rfl

/-- Variations beyond index `n` are not consulted when all task
indices stay below `n`. -/
theorem flattenTasks_take (v : List String) (n : ℕ) :
    ∀ (tasks : List ListingTask) (i : ℕ), i + tasks.length ≤ n →
      flattenTasks (v.take n) i tasks = flattenTasks v i tasks := by
  intro tasks
  induction tasks with
  | nil => intro i _; rfl
  | cons t rest ih =>
    intro i h
    have hi : i < n := by simp only [List.length_cons] at h; omega
    have hgetD : (v.take n).getD i "" = v.getD i "" := by
      simp only [List.getD, List.get?_eq_getElem?]
      rw [List.getElem?_take]
      simp [hi]
    rw [flattenTasks, flattenTasks, hgetD,
      ih (i + 1) (by simp only [List.length_cons] at h; omega)]

/-- The flattening has one row per item: its length is the sum of the
per-task item counts. -/
theorem flattenTasks_length (v : List String) :
    ∀ (tasks : List ListingTask) (i : ℕ),
      (flattenTasks v i tasks).length =
        (tasks.map fun t => (taskItemsModel t).length).sum := by
  intro tasks
  induction tasks with
  | nil => intro i; rfl
  | cons t rest ih => intro i; simp [flattenTasks, ih]

/-- Indexed decomposition of the flattening: the segment of task `k`
carries the variation at index `i + k`. -/
theorem flattenTasks_eq_flatten (v : List String) :
    ∀ (tasks : List ListingTask) (i : ℕ),
      flattenTasks v i tasks =
        ((List.range tasks.length).map fun k =>
          (taskItemsModel (tasks.getD k {})).map
            (rowOfItem (v.getD (i + k) ""))).flatten := by
  intro tasks
  induction tasks with
  | nil => intro i; rfl
  | cons t rest ih =>
    intro i
    rw [flattenTasks, List.length_cons, List.range_succ_eq_map]
    rw [List.map_cons, List.flatten_cons, List.map_map]
    rw [ih (i + 1)]
    congr 1
    apply congrArg List.flatten
    apply List.map_congr_left
    intro k hk
    have harith : i + (k + 1) = i + 1 + k := by omega
    simp [Function.comp, harith]

/-! ### Claim C4 — query expansion -/

/-- Claim C4: for every (keyword, city, state) with all three strings
non-empty, `variations` returns exactly 5 strings, in the fixed
template order, with no deduplication or normalization. -/
theorem variations_exact (keyword city state : String)
    (_h1 : keyword ≠ "") (_h2 : city ≠ "") (_h3 : state ≠ "") :
    variations keyword city state =
      [keyword, keyword ++ " near me", keyword ++ " " ++ city,
       keyword ++ " " ++ state, keyword ++ " " ++ city ++ " " ++ state] ∧
    (variations keyword city state).length = 5 :=
  ⟨rfl, rfl⟩

/-- Claim C4 witness: the spec's own scenario, keyword `plumber` in
Los Angeles, CA. -/
theorem variations_exact_witness :
    ("plumber" : String) ≠ "" ∧ ("Los Angeles" : String) ≠ "" ∧
    ("CA" : String) ≠ "" ∧
    (variations "plumber" "Los Angeles" "CA" =
      ["plumber", "plumber" ++ " near me", "plumber" ++ " " ++ "Los Angeles",
       "plumber" ++ " " ++ "CA",
       "plumber" ++ " " ++ "Los Angeles" ++ " " ++ "CA"] ∧
     (variations "plumber" "Los Angeles" "CA").length = 5) :=
  ⟨by decide, by decide, by decide,
   variations_exact "plumber" "Los Angeles" "CA" (by decide) (by decide)
     (by decide)⟩

/-! ### Claim C1 — bounded iteration of the normalizer -/

/-- Claim C1 counterexample: one task holding one item against an
empty variation list — the tasks list longer than the variations
list — makes `format_results` read `variations[0]` and fail with an
IndexError, refuting the claim that iteration is bounded by the
shorter of the two sequences. -/
theorem format_results_index_failure :
    format_results [encodeTask { result := some [{ items := some [{}] }] }] [] =
      .error .indexError := rfl

/-- Claim C1 (amended): `format_results` iterates over all tasks; when
the tasks list is no longer than the variations list — in particular
whenever the API returns fewer tasks than variations — it returns
without any index-out-of-range failure, and only the prefix of the
variations list up to the task count is ever consulted. -/
theorem format_results_safe_of_tasks_le (tasks : List ListingTask)
    (vs : List String) (h : tasks.length ≤ vs.length) :
    format_results (tasks.map encodeTask) vs = .ok (flattenTasks vs 0 tasks) ∧
    format_results (tasks.map encodeTask) vs =
      format_results (tasks.map encodeTask) (vs.take tasks.length) := by
  have h1 := formatTasks_encode vs tasks 0 (by omega)
  have h2 := formatTasks_encode (vs.take tasks.length) tasks 0
    (by simp [List.length_take]; omega)
  refine ⟨h1, ?_⟩
  show formatTasks vs 0 _ = formatTasks (vs.take tasks.length) 0 _
  rw [h1, h2, flattenTasks_take vs tasks.length tasks 0 (by omega)]

/-- Claim C1 witness: one single-item task against two variations. -/
theorem format_results_safe_of_tasks_le_witness :
    ([({ result := some [{ items := some [{ title := some (.str "Acme") }] }] } :
        ListingTask)]).length ≤ (["plumber", "plumber near me"] : List String).length ∧
    (format_results
        ([({ result := some [{ items := some [{ title := some (.str "Acme") }] }] } :
          ListingTask)].map encodeTask) ["plumber", "plumber near me"] =
      .ok (flattenTasks ["plumber", "plumber near me"] 0
        [{ result := some [{ items := some [{ title := some (.str "Acme") }] }] }]) ∧
     format_results
        ([({ result := some [{ items := some [{ title := some (.str "Acme") }] }] } :
          ListingTask)].map encodeTask) ["plumber", "plumber near me"] =
      format_results
        ([({ result := some [{ items := some [{ title := some (.str "Acme") }] }] } :
          ListingTask)].map encodeTask)
        (["plumber", "plumber near me"].take
          [({ result := some [{ items := some [{ title := some (.str "Acme") }] }] } :
            ListingTask)].length)) :=
  ⟨by decide, format_results_safe_of_tasks_le _ _ (by decide)⟩

/-! ### Claim C2 — one row per item, positional queries, null cells -/

/-- Claim C2 counterexample: a task with two items against an empty
variation list makes `format_results` raise an IndexError instead of
returning its two rows, refuting the unrestricted for-every-input
reading. -/
theorem format_results_rows_counterexample :
    format_results [encodeTask { result := some [{ items := some [{}, {}] }] }] [] =
      .error .indexError := rfl

/-- Claim C2 (amended): whenever the tasks list is no longer than the
variations list, `format_results` succeeds with exactly one row per
`ListingItem` — its row count is the sum of the per-task item
counts — each task's rows carry the variation at the task's index as
their Query, and every missing (nested) field yields a `null` cell,
with no exception and no dropped row. -/
theorem format_results_rows_exact (tasks : List ListingTask)
    (vs : List String) (h : tasks.length ≤ vs.length) :
    format_results (tasks.map encodeTask) vs = .ok (flattenTasks vs 0 tasks) ∧
    (flattenTasks vs 0 tasks).length =
      (tasks.map fun t => (taskItemsModel t).length).sum ∧
    flattenTasks vs 0 tasks =
      ((List.range tasks.length).map fun k =>
        (taskItemsModel (tasks.getD k {})).map
          (rowOfItem (vs.getD k ""))).flatten ∧
    (∀ v it, (rowOfItem v it).query = v) ∧
    (∀ v it, it.title = none → (rowOfItem v it).businessName = .null) ∧
    (∀ v it, it.addressInfo = none → (rowOfItem v it).address = .null) ∧
    (∀ v it entries, it.addressInfo = some entries →
      entries.lookup "address" = none → (rowOfItem v it).address = .null) ∧
    (∀ v it, it.phoneNumber = none → (rowOfItem v it).phone = .null) ∧
    (∀ v it, it.rating = none → (rowOfItem v it).rating = .null) ∧
    (∀ v it, it.reviewsCount = none → (rowOfItem v it).totalReviews = .null) := by
  refine ⟨formatTasks_encode vs tasks 0 (by omega),
    flattenTasks_length vs tasks 0, ?_,
    fun v it => rfl,
    fun v it hf => by simp [rowOfItem, hf],
    fun v it hf => by simp [rowOfItem, hf],
    fun v it entries hf hl => by simp [rowOfItem, hf, hl],
    fun v it hf => by simp [rowOfItem, hf],
    fun v it hf => by simp [rowOfItem, hf],
    fun v it hf => by simp [rowOfItem, hf]⟩
  have := flattenTasks_eq_flatten vs tasks 0
  simpa using this

/-- Claim C2 witness: two tasks (two items, then an absent result)
against two variations. -/
theorem format_results_rows_exact_witness :
    wTasks2.length ≤ wVars2.length ∧
    (format_results (wTasks2.map encodeTask) wVars2 =
      .ok (flattenTasks wVars2 0 wTasks2) ∧
     (flattenTasks wVars2 0 wTasks2).length =
       (wTasks2.map fun t => (taskItemsModel t).length).sum ∧
     flattenTasks wVars2 0 wTasks2 =
       ((List.range wTasks2.length).map fun k =>
         (taskItemsModel (wTasks2.getD k {})).map
           (rowOfItem (wVars2.getD k ""))).flatten ∧
     (∀ v it, (rowOfItem v it).query = v) ∧
     (∀ v it, it.title = none → (rowOfItem v it).businessName = .null) ∧
     (∀ v it, it.addressInfo = none → (rowOfItem v it).address = .null) ∧
     (∀ v it entries, it.addressInfo = some entries →
       entries.lookup "address" = none → (rowOfItem v it).address = .null) ∧
     (∀ v it, it.phoneNumber = none → (rowOfItem v it).phone = .null) ∧
     (∀ v it, it.rating = none → (rowOfItem v it).rating = .null) ∧
     (∀ v it, it.reviewsCount = none →
       (rowOfItem v it).totalReviews = .null)) :=
  ⟨by decide, format_results_rows_exact wTasks2 wVars2 (by decide)⟩

/-! ### Claim C3 — website extraction -/

/-- Lookup finds the first binding of a key when nothing before it
carries that key. -/
theorem lookup_append_first (key : String) (link : Json)
    (post : List (String × Json)) :
    ∀ pre : List (String × Json), (∀ p ∈ pre, p.1 ≠ key) →
      (pre ++ (key, link) :: post).lookup key = some link := by
  intro pre
  induction pre with
  | nil => intro _; simp [List.lookup]
  | cons p rest ih =>
    intro hpre
    have hne : (key == p.1) = false := by
      have := hpre p (by simp)
      simp only [beq_eq_false_iff_ne, ne_eq]
      exact fun hh => this hh.symm
    simp only [List.cons_append, List.lookup, hne]
    exact ih fun q hq => hpre q (by simp [hq])

/-- Claim C3: the Website cell is the first site-link of the item's
`site_links` structure when that structure has a site-link entry, and
is absent (null) when the structure is absent or empty; the cell is
produced without error by the item formatter. -/
theorem website_first_site_link (v : String) (it : ListingItem)
    (pre post : List (String × Json)) (link : Json)
    (hpre : ∀ p ∈ pre, p.1 ≠ "site_link") :
    formatItem v (encodeItem it) = .ok (rowOfItem v it) ∧
    (it.siteLinks = none → (rowOfItem v it).website = .null) ∧
    (it.siteLinks = some [] → (rowOfItem v it).website = .null) ∧
    (it.siteLinks = some (pre ++ ("site_link", link) :: post) →
      (rowOfItem v it).website = link) := by
  refine ⟨formatItem_encode v it, ?_, ?_, ?_⟩
  · intro hf; simp [rowOfItem, hf]
  · intro hf; simp [rowOfItem, hf, List.lookup]
  · intro hf
    simp [rowOfItem, hf, lookup_append_first "site_link" link post pre hpre]

/-- Claim C3 witness: a site-links structure holding one non-link
entry, then the site link, then a second (ignored) one. -/
theorem website_first_site_link_witness :
    (∀ p ∈ wPre3, p.1 ≠ "site_link") ∧
    (formatItem "plumber" (encodeItem wItem3) =
      .ok (rowOfItem "plumber" wItem3) ∧
     (wItem3.siteLinks = none →
       (rowOfItem "plumber" wItem3).website = .null) ∧
     (wItem3.siteLinks = some [] →
       (rowOfItem "plumber" wItem3).website = .null) ∧
     (wItem3.siteLinks =
        some (wPre3 ++ ("site_link", .str "https://a.example") :: wPost3) →
       (rowOfItem "plumber" wItem3).website = .str "https://a.example")) := by
  have hpre : ∀ p ∈ wPre3, p.1 ≠ "site_link" := by
    intro p hp
    simp only [wPre3, List.mem_singleton] at hp
    subst hp
    decide
  exact ⟨hpre, website_first_site_link "plumber" wItem3 wPre3 wPost3
    (.str "https://a.example") hpre⟩

/-! ### Claim C9 — only the first result entry is read -/

/-- A task's item extraction looks only at the head of its `result`
array. -/
theorem taskItems_first_result_entry (re : ResultEntry)
    (extra : List ResultEntry) :
    taskItems (encodeTask { result := some (re :: extra) }) =
      taskItems (encodeTask { result := some [re] }) := rfl

/-- The task loop only distinguishes tasks through `taskItems`. -/
theorem formatTasks_congr_task (vs : List String) (t1 t2 : Json)
    (ht : taskItems t1 = taskItems t2) :
    ∀ (before : List Json) (i : ℕ) (after : List Json),
      formatTasks vs i (before ++ t1 :: after) =
        formatTasks vs i (before ++ t2 :: after) := by
  intro before
  induction before with
  | nil => intro i after; simp only [List.nil_append, formatTasks, ht]
  | cons b rest ih =>
    intro i after
    simp only [List.cons_append, formatTasks, List.append_eq, ih (i + 1) after]

/-- Claim C9: in any position of the task list, entries of a task's
`result` array after the first contribute nothing: the run is
identical to one where the task carries only its first result
entry. -/
theorem only_first_result_entry_read (before after : List Json)
    (re : ResultEntry) (extra : List ResultEntry) (vs : List String) :
    format_results
        (before ++ encodeTask { result := some (re :: extra) } :: after) vs =
      format_results (before ++ encodeTask { result := some [re] } :: after) vs :=
  formatTasks_congr_task vs _ _ (taskItems_first_result_entry re extra) before 0
    after

/-! ### Claim C5 — Rating coercion -/

/-- The coercion of a cell is a number or a missing value. -/
theorem to_numeric_coerce_num_or_null (cell : Json) :
    (∃ q, to_numeric_coerce cell = .num q) ∨ to_numeric_coerce cell = .null := by
  cases cell with
  | str s =>
    cases hp : parseNumQ s with
    | none => right; simp [to_numeric_coerce, hp]
    | some q => left; exact ⟨q, by simp [to_numeric_coerce, hp]⟩
  | num q => left; exact ⟨q, rfl⟩
  | bool b => left; exact ⟨if b then 1 else 0, rfl⟩
  | null => right; rfl
  | arr xs => right; rfl
  | obj fs => right; rfl

/-- Claim C5: after the post-load Rating coercion, every Rating cell
is numeric or missing — never a non-numeric string — and an
unparseable value becomes missing without dropping the row or
raising. -/
theorem load_rating_numeric_or_missing (rows : List Row) (r : Row)
    (hr : r ∈ loadTable rows) :
    ((∃ q, r.rating = .num q) ∨ r.rating = .null) ∧
    (∀ s, r.rating ≠ .str s) ∧
    (loadTable rows).length = rows.length := by
  obtain ⟨r0, _, rfl⟩ := List.mem_map.mp hr
  have hcell := to_numeric_coerce_num_or_null r0.rating
  refine ⟨hcell, ?_, by simp [loadTable]⟩
  intro s hs
  have hs2 : to_numeric_coerce r0.rating = Json.str s := hs
  rcases hcell with ⟨q, hq⟩ | hq <;> rw [hq] at hs2 <;>
    exact Json.noConfusion hs2

/-- Claim C5 witness: a table whose one Rating cell holds
`"not a number"`; after loading the cell is missing and the row is
kept. -/
theorem load_rating_numeric_or_missing_witness :
    wRow5 ∈ loadTable wRows5 ∧
    (((∃ q, wRow5.rating = .num q) ∨ wRow5.rating = .null) ∧
     (∀ s, wRow5.rating ≠ .str s) ∧
     (loadTable wRows5).length = wRows5.length) := by
  have hmem : wRow5 ∈ loadTable wRows5 :=
    show wRow5 ∈ [wRow5] from List.mem_cons_self _ _
  exact ⟨hmem, load_rating_numeric_or_missing wRows5 wRow5 hmem⟩

/-! ### Claim C6 — filtering -/

/-- Claim C6: with `requireWebsite` off, the filter keeps exactly the
rows with a present Rating at or above the threshold; the result is
monotone in the threshold; and with `requireWebsite` on, a row with
an empty-string Website is excluded even when its Rating passes. -/
theorem filterTable_spec (df : List Row) (r1 r2 : ℚ) (row : Row)
    (hr : r2 ≤ r1) (hw : row.website = .str "") :
    (∀ x, x ∈ filterTable df r1 false ↔
      x ∈ df ∧ ∃ q, x.rating = .num q ∧ r1 ≤ q) ∧
    (∀ x ∈ filterTable df r1 false, x ∈ filterTable df r2 false) ∧
    row ∉ filterTable df r1 true := by
  have hchar : ∀ (r : ℚ) x, x ∈ filterTable df r false ↔
      x ∈ df ∧ ∃ q, x.rating = .num q ∧ r ≤ q := by
    intro r x
    rw [show filterTable df r false =
      df.filter (fun y => ratingPasses r y.rating) from rfl, List.mem_filter]
    constructor
    · rintro ⟨hx, hp⟩
      refine ⟨hx, ?_⟩
      cases hrat : x.rating <;> rw [hrat] at hp <;>
        simp [ratingPasses] at hp
      exact ⟨_, rfl, hp⟩
    · rintro ⟨hx, q, hq, hle⟩
      exact ⟨hx, by simp [ratingPasses, hq, hle]⟩
  refine ⟨hchar r1, ?_, ?_⟩
  · intro x hx
    obtain ⟨hxd, q, hq, hle⟩ := (hchar r1 x).mp hx
    exact (hchar r2 x).mpr ⟨hxd, q, hq, le_trans hr hle⟩
  · intro hmem
    have hws : websitePresent row.website = true := by
      have : row ∈ (df.filter fun y => ratingPasses r1 y.rating).filter
          fun y => websitePresent y.website := hmem
      exact (List.mem_filter.mp this).2
    rw [hw] at hws
    simp [websitePresent] at hws

/-- Claim C6 witness: threshold 4 over a table with a 4.5-rated,
empty-website row and a 3-rated row with a website. -/
theorem filterTable_spec_witness :
    ((3 : ℚ) ≤ 4 ∧ wRowA.website = .str "") ∧
    ((∀ x, x ∈ filterTable wDf6 4 false ↔
        x ∈ wDf6 ∧ ∃ q, x.rating = .num q ∧ 4 ≤ q) ∧
     (∀ x ∈ filterTable wDf6 4 false, x ∈ filterTable wDf6 3 false) ∧
     wRowA ∉ filterTable wDf6 4 true) :=
  ⟨⟨by norm_num, rfl⟩, filterTable_spec wDf6 4 3 wRowA (by norm_num) rfl⟩

/-! ### Claim C8 — failed API call leaves the last-run state intact -/

/-- Claim C8: when the API call fails (the fetch helper caught a
network error, a non-2xx status or an unparseable body and returned
`None`) — or the decoded body is falsy — the run ends on the
user-visible API-error path and the stored last-run results and
summary are written by nothing: the session state is returned
unchanged. -/
theorem api_error_preserves_state (s : SessionState) (vs : List String)
    (resp : Json) (hresp : resp.truthy = false) :
    runSubmit s none vs = (s, .apiError) ∧
    runSubmit s (some resp) vs = (s, .apiError) := by
  refine ⟨rfl, ?_⟩
  simp [runSubmit, hresp]

/-- Claim C8 witness: a failing fetch against a session that already
holds a prior run. -/
theorem api_error_preserves_state_witness :
    (Json.obj []).truthy = false ∧
    (runSubmit { results := some wDf6, summary := some (5, 2) } none
        ["plumber"] =
      ({ results := some wDf6, summary := some (5, 2) }, .apiError) ∧
     runSubmit { results := some wDf6, summary := some (5, 2) }
        (some (.obj [])) ["plumber"] =
      ({ results := some wDf6, summary := some (5, 2) }, .apiError)) :=
  ⟨rfl, api_error_preserves_state { results := some wDf6, summary := some (5, 2) }
    ["plumber"] (.obj []) rfl⟩

/-! ### Claim C10 — empty/absent tasks go to the API-error path -/

/-- Bind of a failed Python step. -/
theorem error_bind {α β : Type} (e : PyErr) (f : α → Except PyErr β) :
    (Except.error e : Except PyErr α) >>= f = .error e := rfl

/-- A non-dict head task makes the whole task loop raise. -/
theorem formatTasks_str_cons (vs : List String) (i : ℕ) (s : String)
    (rest : List Json) :
    formatTasks vs i (.str s :: rest) = .error .attributeError := rfl

/-- Claim C10: a response whose `tasks` field is absent, null or an
empty list is reported through the API-error path (not as the
zero-businesses outcome) with the session state untouched, and the
zero-businesses outcome is reached only when `tasks` is a non-empty
list whose items flatten to zero rows. -/
theorem empty_tasks_api_error (s : SessionState) (vs : List String)
    (fields : List (String × Json)) (fr : Option Json)
    (h : fields.lookup "tasks" = none ∨ fields.lookup "tasks" = some .null ∨
      fields.lookup "tasks" = some (.arr []))
    (hnd : (runSubmit s fr vs).2 = .noData) :
    runSubmit s (some (.obj fields)) vs = (s, .apiError) ∧
    ∃ resp xs, fr = some resp ∧ pyGet resp "tasks" = .ok (.arr xs) ∧
      xs ≠ [] ∧ format_results xs vs = .ok [] := by
  constructor
  · cases hft : (Json.obj fields).truthy with
    | false => simp [runSubmit, hft]
    | true =>
      rcases h with h | h | h <;>
        simp [runSubmit, hft, pyGet, pyGetD_obj, h, Json.truthy]
  · cases fr with
    | none => simp [runSubmit] at hnd
    | some resp =>
      cases hrt : resp.truthy with
      | false => simp [runSubmit, hrt] at hnd
      | true =>
        cases hpg : pyGet resp "tasks" with
        | error e => simp [runSubmit, hrt, hpg] at hnd
        | ok tv =>
          cases htv : tv.truthy with
          | false => simp [runSubmit, hrt, hpg, htv] at hnd
          | true =>
            cases hfr2 : formatResultsJson tv vs with
            | error e => simp [runSubmit, hrt, hpg, htv, hfr2] at hnd
            | ok rows =>
              cases hre : rows.isEmpty with
              | false => simp [runSubmit, hrt, hpg, htv, hfr2, hre] at hnd
              | true =>
                have hrows : rows = [] := by
                  cases rows with
                  | nil => rfl
                  | cons a l => simp at hre
                subst hrows
                cases tv with
                | null => simp [Json.truthy] at htv
                | bool b =>
                  simp [formatResultsJson, pyIter, error_bind] at hfr2
                | num q =>
                  simp [formatResultsJson, pyIter, error_bind] at hfr2
                | str sstr =>
                  cases hd : sstr.data with
                  | nil =>
                    have hse : sstr = "" := by
                      cases sstr with
                      | mk data => simp at hd; subst hd; rfl
                    rw [hse] at htv
                    simp [Json.truthy] at htv
                  | cons c cs =>
                    rw [show formatResultsJson (.str sstr) vs =
                        format_results (sstr.data.map fun ch =>
                          .str (String.singleton ch)) vs from rfl] at hfr2
                    rw [hd] at hfr2
                    rw [List.map_cons] at hfr2
                    rw [show format_results
                        (Json.str (String.singleton c) ::
                          cs.map fun ch => Json.str (String.singleton ch)) vs =
                        .error .attributeError from rfl] at hfr2
                    exact Except.noConfusion hfr2
                | obj fs2 =>
                  cases fs2 with
                  | nil => simp [Json.truthy] at htv
                  | cons p ps =>
                    rw [show formatResultsJson (.obj (p :: ps)) vs =
                        formatTasks vs 0 (.str p.1 ::
                          ps.map fun q => .str q.1) from rfl] at hfr2
                    rw [formatTasks_str_cons] at hfr2
                    exact Except.noConfusion hfr2
                | arr xs =>
                  refine ⟨resp, xs, rfl, hpg, ?_, ?_⟩
                  · intro hxe
                    rw [hxe] at htv
                    simp [Json.truthy] at htv
                  · have : formatResultsJson (.arr xs) vs =
                        format_results xs vs := rfl
                    rw [this] at hfr2
                    exact hfr2

/-- Claim C10 witness: a response without a `tasks` key goes to the
API-error path, while a one-task response whose task flattens to zero
rows reaches the zero-businesses outcome. -/
theorem empty_tasks_api_error_witness :
    (([("note", Json.str "ok")] : List (String × Json)).lookup "tasks" = none ∨
     ([("note", Json.str "ok")] : List (String × Json)).lookup "tasks" =
       some .null ∨
     ([("note", Json.str "ok")] : List (String × Json)).lookup "tasks" =
       some (.arr [])) ∧
    (runSubmit { results := none, summary := none }
        (some (.obj [("tasks", .arr [.obj []])])) ["plumber"]).2 = .noData ∧
    (runSubmit { results := none, summary := none }
        (some (.obj [("note", Json.str "ok")])) ["plumber"] =
      ({ results := none, summary := none }, .apiError) ∧
     ∃ resp xs, (some (.obj [("tasks", .arr [.obj []])]) : Option Json) =
        some resp ∧ pyGet resp "tasks" = .ok (.arr xs) ∧ xs ≠ [] ∧
        format_results xs ["plumber"] = .ok []) :=
  ⟨Or.inl rfl, rfl,
   empty_tasks_api_error { results := none, summary := none } ["plumber"]
     [("note", Json.str "ok")] (some (.obj [("tasks", .arr [.obj []])]))
     (Or.inl rfl) rfl⟩

/-! ### Claim C7 — decimal numeral round-trip -/

/-- Digit characters are digits. -/
theorem digitChar_isDigit (d : ℕ) (hd : d < 10) :
    (digitChar d).isDigit = true := by
  interval_cases d <;> decide

/-- Digit characters decode to their value. -/
theorem digitChar_val (d : ℕ) (hd : d < 10) :
    (digitChar d).toNat - 48 = d := by
  interval_cases d <;> decide

/-- Folding a reversed list is folding from the right. -/
theorem charsToNat_reverse (cs : List Char) :
    charsToNat cs.reverse =
      cs.foldr (fun c acc => 10 * acc + (c.toNat - 48)) 0 := by
  rw [charsToNat, List.foldl_reverse]

/-- Decoding the digit characters of a digit list is evaluating the
digits. -/
theorem foldr_digitChar_val (L : List ℕ) (h : ∀ d ∈ L, d < 10) :
    L.foldr (fun x acc => 10 * acc + ((digitChar x).toNat - 48)) 0 =
      Nat.ofDigits 10 L := by
  induction L with
  | nil => rfl
  | cons d tl ih =>
    rw [List.foldr_cons, ih fun x hx => h x (List.mem_cons_of_mem d hx),
      Nat.ofDigits_cons, digitChar_val d (h d (List.mem_cons_self d tl))]
    ring

/-- The digit rendering of a positive natural decodes to itself. -/
theorem charsToNat_natToChars (n : ℕ) : charsToNat (natToChars n) = n := by
  rw [natToChars, charsToNat_reverse, List.foldr_map,
    foldr_digitChar_val (Nat.digits 10 n)
      (fun d hd => Nat.digits_lt_base (by norm_num) hd),
    Nat.ofDigits_digits]

/-- The digit rendering of any natural decodes to itself. -/
theorem charsToNat_natToCharsZ (n : ℕ) : charsToNat (natToCharsZ n) = n := by
  by_cases hn : n = 0
  · subst hn; rfl
  · rw [natToCharsZ, if_neg hn, charsToNat_natToChars]

/-- The renderer emits digit characters only. -/
theorem natToCharsZ_all_digits (n : ℕ) :
    ∀ c ∈ natToCharsZ n, c.isDigit = true := by
  intro c hc
  by_cases hn : n = 0
  · subst hn
    simp [natToCharsZ] at hc
    subst hc; decide
  · rw [natToCharsZ, if_neg hn, natToChars, List.mem_reverse] at hc
    obtain ⟨d, hd, rfl⟩ := List.mem_map.mp hc
    exact digitChar_isDigit d (Nat.digits_lt_base (by norm_num) hd)

/-- The renderer never emits the empty string. -/
theorem natToCharsZ_ne_nil (n : ℕ) : natToCharsZ n ≠ [] := by
  by_cases hn : n = 0
  · subst hn; simp [natToCharsZ]
  · rw [natToCharsZ, if_neg hn, natToChars]
    simp only [ne_eq, List.reverse_eq_nil_iff, List.map_eq_nil_iff]
    exact Nat.digits_ne_nil_iff_ne_zero.mpr hn

/-- Folding with a starting accumulator scales it by the length. -/
theorem charsToNat_foldl_acc (cs : List Char) :
    ∀ acc : ℕ,
      cs.foldl (fun a c => 10 * a + (c.toNat - 48)) acc =
        acc * 10 ^ cs.length +
          cs.foldl (fun a c => 10 * a + (c.toNat - 48)) 0 := by
  induction cs with
  | nil => intro acc; simp
  | cons c tl ih =>
    intro acc
    rw [List.foldl_cons, List.foldl_cons, ih (10 * acc + (c.toNat - 48)),
      ih (10 * 0 + (c.toNat - 48))]
    simp only [List.length_cons]
    ring

/-- Decoding splits over append. -/
theorem charsToNat_append (a b : List Char) :
    charsToNat (a ++ b) = charsToNat a * 10 ^ b.length + charsToNat b := by
  simp only [charsToNat, List.foldl_append]
  exact charsToNat_foldl_acc b _

/-- A leading zero character changes nothing. -/
theorem charsToNat_cons_zero (cs : List Char) :
    charsToNat ('0' :: cs) = charsToNat cs := by
  simp only [charsToNat, List.foldl_cons]
  norm_num
  have h0 : '0'.toNat - 48 = 0 := by decide
  rw [h0]

/-- Leading zero padding changes nothing. -/
theorem charsToNat_padZeros (len : ℕ) (cs : List Char) :
    charsToNat (padZeros len cs) = charsToNat cs := by
  rw [padZeros]
  induction (len - cs.length) with
  | zero => rfl
  | succ j ih => rw [List.replicate_succ, List.cons_append, charsToNat_cons_zero, ih]

/-- Every character of the padded digit string is a digit. -/
theorem padZeros_all_digits (len : ℕ) (cs : List Char)
    (h : ∀ c ∈ cs, c.isDigit = true) :
    ∀ c ∈ padZeros len cs, c.isDigit = true := by
  intro c hc
  rw [padZeros, List.mem_append] at hc
  rcases hc with hc | hc
  · rw [List.eq_of_mem_replicate hc]; decide
  · exact h c hc

/-- The padded digit string reaches the requested length. -/
theorem padZeros_length (len : ℕ) (cs : List Char) :
    len ≤ (padZeros len cs).length := by
  rw [padZeros, List.length_append, List.length_replicate]
  omega

/-- takeWhile over an all-satisfying prefix followed by a failing head
keeps exactly the prefix. -/
theorem takeWhile_all_append (p : Char → Bool) :
    ∀ (a b : List Char), (∀ c ∈ a, p c = true) →
      (∀ c cs, b = c :: cs → p c = false) →
      (a ++ b).takeWhile p = a := by
  intro a
  induction a with
  | nil =>
    intro b _ hb
    cases b with
    | nil => rfl
    | cons c cs =>
      simp only [List.nil_append, List.takeWhile_cons, hb c cs rfl]
      simp
  | cons x xs ih =>
    intro b ha hb
    rw [List.cons_append,
      List.takeWhile_cons_of_pos (ha x (List.mem_cons_self x xs)),
      ih b (fun c hc => ha c (List.mem_cons_of_mem x hc)) hb]

/-- dropWhile over an all-satisfying prefix followed by a failing head
drops exactly the prefix. -/
theorem dropWhile_all_append (p : Char → Bool) :
    ∀ (a b : List Char), (∀ c ∈ a, p c = true) →
      (∀ c cs, b = c :: cs → p c = false) →
      (a ++ b).dropWhile p = b := by
  intro a
  induction a with
  | nil =>
    intro b _ hb
    cases b with
    | nil => rfl
    | cons c cs =>
      simp only [List.nil_append, List.dropWhile_cons, hb c cs rfl]
      simp
  | cons x xs ih =>
    intro b ha hb
    rw [List.cons_append,
      List.dropWhile_cons_of_pos (ha x (List.mem_cons_self x xs)),
      ih b (fun c hc => ha c (List.mem_cons_of_mem x hc)) hb]

/-- Parsing an all-digit numeral succeeds with its value. -/
theorem parseUnsigned_digits (cs : List Char) (hne : cs ≠ [])
    (h : ∀ c ∈ cs, c.isDigit = true) :
    parseUnsignedChars cs = some ((charsToNat cs : ℚ)) := by
  have htw : cs.takeWhile Char.isDigit = cs := by
    have := takeWhile_all_append Char.isDigit cs [] (by simpa using h)
      (fun c cs h => by simp at h)
    simpa using this
  have hdw : cs.dropWhile Char.isDigit = [] := by
    have := dropWhile_all_append Char.isDigit cs [] (by simpa using h)
      (fun c cs h => by simp at h)
    simpa using this
  rw [parseUnsignedChars]
  simp only [htw, hdw]
  rw [if_neg (by simpa [List.isEmpty_iff] using hne)]

/-- Parsing digits, a dot, then digits succeeds with the combined
value. -/
theorem parseUnsigned_int_frac (ip fp : List Char) (hip : ip ≠ [])
    (hipd : ∀ c ∈ ip, c.isDigit = true) (hfpd : ∀ c ∈ fp, c.isDigit = true) :
    parseUnsignedChars (ip ++ '.' :: fp) =
      some ((charsToNat ip : ℚ) +
        (charsToNat fp : ℚ) / (10 : ℚ) ^ fp.length) := by
  have hdot : ∀ c cs, ('.' :: fp : List Char) = c :: cs → c.isDigit = false := by
    intro c cs h
    cases h
    decide
  have htw := takeWhile_all_append Char.isDigit ip ('.' :: fp) hipd hdot
  have hdw := dropWhile_all_append Char.isDigit ip ('.' :: fp) hipd hdot
  have hcond : (fp.all Char.isDigit && !(ip.isEmpty && fp.isEmpty)) = true := by
    simp only [Bool.and_eq_true, List.all_eq_true, Bool.not_eq_true',
      Bool.and_eq_false_iff]
    refine ⟨fun c hc => hfpd c hc, Or.inl ?_⟩
    simpa [List.isEmpty_iff] using hip
  rw [parseUnsignedChars]
  simp only [htw, hdw, if_true, hcond]

/-- Round-trip for the unsigned fixed-point renderer. -/
theorem parseUnsigned_renderScaledNat (n k : ℕ) :
    parseUnsignedChars (renderScaledNat n k) = some ((n : ℚ) / (10 : ℚ) ^ k) := by
  by_cases hk : k = 0
  · subst hk
    rw [renderScaledNat, if_pos rfl,
      parseUnsigned_digits _ (natToCharsZ_ne_nil n) (natToCharsZ_all_digits n),
      charsToNat_natToCharsZ]
    norm_num
  · rw [renderScaledNat, if_neg hk]
    set body := padZeros (k + 1) (natToCharsZ n) with hbody
    have hbd : ∀ c ∈ body, c.isDigit = true :=
      padZeros_all_digits (k + 1) _ (natToCharsZ_all_digits n)
    have hblen : k + 1 ≤ body.length := padZeros_length (k + 1) _
    set ip := body.take (body.length - k) with hip
    set fp := body.drop (body.length - k) with hfp
    have hsplit : ip ++ fp = body := List.take_append_drop _ body
    have hiplen : ip.length = body.length - k := by
      rw [hip, List.length_take]
      omega
    have hfplen : fp.length = k := by
      rw [hfp, List.length_drop]
      omega
    have hipne : ip ≠ [] := by
      intro hh
      rw [hh] at hiplen
      simp at hiplen
      omega
    have hipd : ∀ c ∈ ip, c.isDigit = true := fun c hc =>
      hbd c (List.take_subset _ body hc)
    have hfpd : ∀ c ∈ fp, c.isDigit = true := fun c hc =>
      hbd c (List.drop_subset _ body hc)
    rw [parseUnsigned_int_frac ip fp hipne hipd hfpd]
    have hval : charsToNat ip * 10 ^ k + charsToNat fp = n := by
      have := charsToNat_append ip fp
      rw [hsplit, hfplen] at this
      rw [← this, hbody, charsToNat_padZeros, charsToNat_natToCharsZ]
    congr 1
    rw [hfplen]
    field_simp
    exact_mod_cast hval

/-- The fixed-point renderer never emits the empty string, and starts
with a digit or a minus sign followed by a digit. -/
theorem renderScaledNat_head (n k : ℕ) :
    ∃ c cs, renderScaledNat n k = c :: cs ∧ c.isDigit = true := by
  by_cases hk : k = 0
  · subst hk
    rw [renderScaledNat, if_pos rfl]
    cases hc : natToCharsZ n with
    | nil => exact absurd hc (natToCharsZ_ne_nil n)
    | cons c cs =>
      refine ⟨c, cs, rfl, ?_⟩
      exact natToCharsZ_all_digits n c (by rw [hc]; exact List.mem_cons_self c cs)
  · rw [renderScaledNat, if_neg hk]
    set body := padZeros (k + 1) (natToCharsZ n) with hbody
    have hbd : ∀ c ∈ body, c.isDigit = true :=
      padZeros_all_digits (k + 1) _ (natToCharsZ_all_digits n)
    have hblen : k + 1 ≤ body.length := padZeros_length (k + 1) _
    cases hc : body.take (body.length - k) with
    | nil =>
      have : (body.take (body.length - k)).length = body.length - k := by
        rw [List.length_take]; omega
      rw [hc] at this
      simp at this
      omega
    | cons c cs =>
      refine ⟨c, cs ++ '.' :: body.drop (body.length - k), by simp [hc], ?_⟩
      have hcmem : c ∈ body.take (body.length - k) := by
        rw [hc]; exact List.mem_cons_self c cs
      exact hbd c (List.take_subset _ body hcmem)

/-- Round-trip for the signed fixed-point renderer. -/
theorem parseNum_renderScaled (m : ℤ) (k : ℕ) :
    parseNumChars (renderScaled m k) = some ((m : ℚ) / (10 : ℚ) ^ k) := by
  obtain ⟨c, cs, hcons, hdig⟩ := renderScaledNat_head m.natAbs k
  by_cases hm : m < 0
  · rw [renderScaled, if_pos hm, parseNumChars]
    rw [if_pos rfl, parseUnsigned_renderScaledNat]
    have habs : ((m.natAbs : ℚ)) = -(m : ℚ) := by
      rw [Int.cast_natAbs, Int.cast_abs]
      exact abs_of_neg (by exact_mod_cast hm)
    simp only [Option.map_some']
    congr 1
    rw [habs]
    ring
  · rw [renderScaled, if_neg hm, hcons, parseNumChars]
    rw [if_neg]
    · rw [← hcons, parseUnsigned_renderScaledNat]
      have habs : ((m.natAbs : ℚ)) = (m : ℚ) := by
        rw [Int.cast_natAbs, Int.cast_abs]
        exact abs_of_nonneg (by exact_mod_cast le_of_not_lt hm)
      rw [habs]
    · intro hc
      rw [hc] at hdig
      exact absurd hdig (by decide)

/-- A decimal exponent within the search bound is found. -/
theorem decExp_isSome_of (q : ℚ) (k : ℕ) (hk : k ≤ q.den)
    (h : (q * (10 : ℚ) ^ k).den = 1) : (decExp q).isSome = true := by
  rw [decExp, List.find?_isSome]
  exact ⟨k, List.mem_range.mpr (by omega), by simp [h]⟩

/-- A found decimal exponent makes the scaled value an integer. -/
theorem decExp_spec (q : ℚ) (k : ℕ) (h : decExp q = some k) :
    (q * (10 : ℚ) ^ k).den = 1 := by
  have := List.find?_some h
  simpa using this

/-- Round-trip for the rational renderer on decimal rationals. -/
theorem parseNum_renderRat (q : ℚ) (h : (decExp q).isSome = true) :
    parseNumChars (renderRat q) = some q := by
  obtain ⟨k, hk⟩ := Option.isSome_iff_exists.mp h
  simp only [renderRat, hk]
  rw [parseNum_renderScaled]
  have hden := decExp_spec q k hk
  have hint : ((q * (10 : ℚ) ^ k).num : ℚ) = q * (10 : ℚ) ^ k := by
    conv_rhs => rw [← Rat.num_div_den (q * (10 : ℚ) ^ k)]
    rw [hden]
    norm_num
  rw [hint]
  congr 1
  have h10 : ((10 : ℚ) ^ k) ≠ 0 := by positivity
  field_simp

/-- The rational renderer never emits the empty string. -/
theorem renderRat_ne_nil (q : ℚ) (h : (decExp q).isSome = true) :
    renderRat q ≠ [] := by
  obtain ⟨k, hk⟩ := Option.isSome_iff_exists.mp h
  simp only [renderRat, hk, renderScaled]
  obtain ⟨c, cs, hcons, _⟩ := renderScaledNat_head (q * (10 : ℚ) ^ k).num.natAbs k
  by_cases hm : (q * (10 : ℚ) ^ k).num < 0
  · rw [if_pos hm]; simp
  · rw [if_neg hm, hcons]; simp

/-- Re-typing a rendered scalar cell is exactly the stated type
coercion. -/
theorem reparseCell_cellToCsv (j : Json) (h : scalarCell j) :
    reparseCell (cellToCsv j) = csvCoerce j := by
  cases j with
  | null => rfl
  | num q =>
    have hq : (decExp q).isSome = true := h
    have hne : (renderRat q).isEmpty = false := by
      have := renderRat_ne_nil q hq
      cases hr : renderRat q with
      | nil => exact absurd hr this
      | cons a l => rfl
    rw [show cellToCsv (.num q) = renderRat q from rfl, reparseCell]
    rw [if_neg (by simp [hne])]
    rw [parseNum_renderRat q hq]
    rfl
  | bool b => cases b <;> rfl
  | str s =>
    rw [show cellToCsv (.str s) = s.data from rfl, reparseCell]
    by_cases hs : s = ""
    · subst hs; rfl
    · have hdne : s.data.isEmpty = false := by
        cases s with
        | mk data =>
          cases data with
          | nil => exact absurd rfl hs
          | cons a l => rfl
      rw [if_neg (by simp [hdne])]
      cases hp : parseNumChars s.data with
      | some q => simp [csvCoerce, if_neg hs, parseNumQ, hp]
      | none => simp only [csvCoerce, if_neg hs, parseNumQ, hp]
  | arr xs => exact absurd h (by simp [scalarCell])
  | obj fs => exact absurd h (by simp [scalarCell])

/-- Unfolding of the quoted-field parser on a cons cell. -/
theorem parseQuotedF_cons (c : Char) (rest : List Char) :
    parseQuotedF (c :: rest) =
      if c = '"' then
        match rest with
        | d :: rest2 =>
          if d = '"' then (parseQuotedF rest2).map fun p => ('"' :: p.1, p.2)
          else some ([], rest)
        | [] => some ([], [])
      else (parseQuotedF rest).map fun p => (c :: p.1, p.2) := by
  rw [parseQuotedF.eq_def]

/-- A doubled quote un-escapes into the field body. -/
theorem parseQuotedF_quote_quote (rest : List Char) :
    parseQuotedF ('"' :: '"' :: rest) =
      (parseQuotedF rest).map fun p => ('"' :: p.1, p.2) := by
  have h := parseQuotedF_cons '"' ('"' :: rest)
  simp only [if_pos rfl] at h
  exact h

/-- A lone quote before a non-quote closes the field. -/
theorem parseQuotedF_quote_other (d : Char) (rest : List Char) (hd : d ≠ '"') :
    parseQuotedF ('"' :: d :: rest) = some ([], d :: rest) := by
  have h := parseQuotedF_cons '"' (d :: rest)
  simp only [if_pos rfl, if_neg hd] at h
  exact h

/-- A quote at the very end closes the field at the end of input. -/
theorem parseQuotedF_quote_nil : parseQuotedF ['"'] = some ([], []) := rfl

/-- An ordinary character goes into the field body. -/
theorem parseQuotedF_other (c : Char) (rest : List Char) (hc : c ≠ '"') :
    parseQuotedF (c :: rest) =
      (parseQuotedF rest).map fun p => (c :: p.1, p.2) := by
  have h := parseQuotedF_cons c rest
  rw [if_neg hc] at h
  exact h

/-- Parsing the escaped body of a quoted field consumes it up to the
closing quote. -/
theorem parseQuoted_escape :
    ∀ (s rest : List Char), (∀ c r, rest = c :: r → c ≠ '"') →
      parseQuotedF (escapeChars s ++ '"' :: rest) = some (s, rest) := by
  intro s
  induction s with
  | nil =>
    intro rest hrest
    rw [escapeChars, List.nil_append]
    cases rest with
    | nil => exact parseQuotedF_quote_nil
    | cons d r => exact parseQuotedF_quote_other d r (hrest d r rfl)
  | cons c cs ih =>
    intro rest hrest
    by_cases hc : c = '"'
    · subst hc
      rw [escapeChars, if_pos rfl, List.cons_append, List.cons_append,
        parseQuotedF_quote_quote, ih rest hrest]
      rfl
    · rw [escapeChars, if_neg hc, List.cons_append, parseQuotedF_other c _ hc,
        ih rest hrest]
      rfl

/-- Parsing an unquoted field stops exactly at the separator. -/
theorem parseUnquoted_append :
    ∀ (s rest : List Char), (∀ c ∈ s, c ≠ ',' ∧ c ≠ '\n') → sepHead rest →
      parseUnquotedF (s ++ rest) = (s, rest) := by
  intro s
  induction s with
  | nil =>
    intro rest _ hrest
    rcases hrest with rfl | ⟨r, rfl⟩ | ⟨r, rfl⟩
    · rfl
    · rw [List.nil_append, parseUnquotedF]
      rw [if_pos (by decide)]
    · rw [List.nil_append, parseUnquotedF]
      rw [if_pos (by decide)]
  | cons c cs ih =>
    intro rest hs hrest
    have hc := hs c (List.mem_cons_self c cs)
    rw [List.cons_append, parseUnquotedF]
    rw [if_neg (by simp [hc.1, hc.2])]
    rw [ih rest (fun x hx => hs x (List.mem_cons_of_mem c hx)) hrest]

/-- Round-trip for one rendered field followed by a separator. -/
theorem parseField_renderField (f rest : List Char) (hrest : sepHead rest) :
    parseFieldF (renderField f ++ rest) = some (f, rest) := by
  by_cases hq : needsQuote f = true
  · rw [renderField, if_pos hq]
    have heq : ('"' :: (escapeChars f ++ ['"'])) ++ rest =
        '"' :: (escapeChars f ++ '"' :: rest) := by simp
    rw [heq, parseFieldF, if_pos rfl]
    apply parseQuoted_escape
    intro c r hcr
    rcases hrest with rfl | ⟨r2, hr2⟩ | ⟨r2, hr2⟩
    · exact absurd hcr (by simp)
    · rw [hr2] at hcr; cases hcr; decide
    · rw [hr2] at hcr; cases hcr; decide
  · have hfalse : needsQuote f = false := by simpa using hq
    have hnof : ∀ c ∈ f, c ≠ ',' ∧ c ≠ '"' ∧ c ≠ '\n' ∧ c ≠ '\r' := by
      intro c hc
      rw [needsQuote, List.any_eq_false] at hfalse
      have hcf := hfalse c hc
      simp only [Bool.or_eq_true, beq_iff_eq, not_or] at hcf
      exact ⟨hcf.1.1.1, hcf.1.1.2, hcf.1.2, hcf.2⟩
    rw [renderField, if_neg (by simp [hfalse])]
    cases f with
    | nil =>
      rcases hrest with rfl | ⟨r, rfl⟩ | ⟨r, rfl⟩
      · rfl
      · rw [List.nil_append, parseFieldF, if_neg (by decide)]
        rw [parseUnquotedF, if_pos (by decide)]
      · rw [List.nil_append, parseFieldF, if_neg (by decide)]
        rw [parseUnquotedF, if_pos (by decide)]
    | cons c0 f0 =>
      have hc0 := hnof c0 (List.mem_cons_self c0 f0)
      rw [List.cons_append, parseFieldF, if_neg hc0.2.1]
      rw [← List.cons_append,
        parseUnquoted_append (c0 :: f0) rest
          (fun x hx => ⟨(hnof x hx).1, (hnof x hx).2.2.1⟩) hrest]

/-- Unfolding of the record parser with remaining fuel. -/
theorem parseRecordF_succ (fuel : ℕ) (cs : List Char) :
    parseRecordF (fuel + 1) cs =
      match parseFieldF cs with
      | none => none
      | some (f, rest) =>
        match rest with
        | [] => some ([f], [])
        | c :: r =>
          if c = ',' then (parseRecordF fuel r).map fun p => (f :: p.1, p.2)
          else if c = '\n' then some ([f], r)
          else none := by
  rw [parseRecordF.eq_def]

/-- Unfolding of the records parser with remaining fuel. -/
theorem parseRecordsF_succ (fuel : ℕ) (cs : List Char) :
    parseRecordsF (fuel + 1) cs =
      if cs.isEmpty then some []
      else
        match parseRecordF (fuel + 1) cs with
        | none => none
        | some (fields, rest) =>
          (parseRecordsF fuel rest).map fun rs => fields :: rs := by
  rw [parseRecordsF.eq_def]

/-- Round-trip for one rendered record followed by its newline. -/
theorem parseRecord_renderRecord :
    ∀ (fs : List (List Char)) (fuel : ℕ) (rest : List Char), fs ≠ [] →
      fs.length ≤ fuel →
      parseRecordF fuel (renderRecord fs ++ '\n' :: rest) = some (fs, rest) := by
  intro fs
  induction fs with
  | nil => intro fuel rest h _; exact absurd rfl h
  | cons f gs ih =>
    intro fuel rest _ hfuel
    cases fuel with
    | zero => simp at hfuel
    | succ fu =>
      cases gs with
      | nil =>
        rw [show renderRecord [f] = renderField f from rfl, parseRecordF_succ,
          parseField_renderField f ('\n' :: rest) (Or.inr (Or.inr ⟨rest, rfl⟩))]
        simp
      | cons g gs2 =>
        have hassoc : renderRecord (f :: g :: gs2) ++ '\n' :: rest =
            renderField f ++
              ',' :: (renderRecord (g :: gs2) ++ '\n' :: rest) := by
          rw [show renderRecord (f :: g :: gs2) =
            renderField f ++ ',' :: renderRecord (g :: gs2) from rfl]
          simp
        rw [hassoc, parseRecordF_succ,
          parseField_renderField f
            (',' :: (renderRecord (g :: gs2) ++ '\n' :: rest))
            (Or.inr (Or.inl ⟨_, rfl⟩))]
        simp only [if_pos rfl]
        rw [ih fu rest (by simp) (by simp only [List.length_cons] at hfuel ⊢; omega)]
        rfl

/-- A rendered record has at least one character per field beyond the
first. -/
theorem renderRecord_length :
    ∀ fs : List (List Char), fs.length ≤ (renderRecord fs).length + 1 := by
  intro fs
  induction fs with
  | nil => simp
  | cons f gs ih =>
    cases gs with
    | nil => simp [renderRecord]
    | cons g gs2 =>
      rw [show renderRecord (f :: g :: gs2) =
        renderField f ++ ',' :: renderRecord (g :: gs2) from rfl]
      simp only [List.length_append, List.length_cons] at ih ⊢
      omega

/-- The serialized text of a record list, cons form. -/
theorem renderCsv_cons (r : List (List Char)) (rs : List (List (List Char))) :
    renderCsv (r :: rs) = renderRecord r ++ '\n' :: renderCsv rs := by
  simp [renderCsv]

/-- Round-trip for a rendered record list under sufficient fuel. -/
theorem parseRecords_renderCsv :
    ∀ (rows : List (List (List Char))) (fuel : ℕ), (∀ r ∈ rows, r ≠ []) →
      (renderCsv rows).length + 1 ≤ fuel →
      parseRecordsF fuel (renderCsv rows) = some rows := by
  intro rows
  induction rows with
  | nil =>
    intro fuel _ hfuel
    cases fuel with
    | zero => omega
    | succ fu => rfl
  | cons r rs ih =>
    intro fuel hne hfuel
    rw [renderCsv_cons] at hfuel ⊢
    cases fuel with
    | zero => omega
    | succ fu =>
      have hnonempty : (renderRecord r ++ '\n' :: renderCsv rs).isEmpty = false := by
        cases hrr : renderRecord r <;> simp [hrr]
      have hrlen := renderRecord_length r
      have hrest : (renderCsv rs).length + 1 ≤ fu := by
        simp only [List.length_append, List.length_cons] at hfuel
        omega
      have hfieldfuel : r.length ≤ fu + 1 := by
        simp only [List.length_append, List.length_cons] at hfuel
        omega
      rw [parseRecordsF_succ, hnonempty]
      simp only [Bool.false_eq_true, if_false]
      rw [parseRecord_renderRecord r (fu + 1) (renderCsv rs)
        (hne r (List.mem_cons_self r rs)) hfieldfuel]
      show (parseRecordsF fu (renderCsv rs)).map (fun xs => r :: xs) =
        some (r :: rs)
      rw [ih fu (fun x hx => hne x (List.mem_cons_of_mem r hx)) hrest]
      rfl

/-- The full serializer inverts to the exact header and data records. -/
theorem parseCsv_to_csv (df : List Row) :
    parseCsv (to_csv df) = some (headerRecord :: df.map rowRecord) := by
  rw [to_csv, parseCsv]
  rw [show (String.mk (renderCsv (headerRecord :: df.map rowRecord))).data =
    renderCsv (headerRecord :: df.map rowRecord) from rfl]
  apply parseRecords_renderCsv
  · intro r hr
    rcases List.mem_cons.mp hr with rfl | hr2
    · simp [headerRecord]
    · obtain ⟨row, _, rfl⟩ := List.mem_map.mp hr2
      simp [rowRecord, rowCells]
  · omega

/-- Claim C7: the serializer writes the header record of exactly the
columns Query, Business Name, Address, Phone, Website, Rating, Total
Reviews first, then one record per table row; parsing the produced
text back recovers the records exactly, and re-typing the cells gives
the original table modulo the stated coercion (absent to missing,
numerals to their values). -/
theorem to_csv_roundtrip (df : List Row) (h : ∀ r ∈ df, scalarRow r) :
    parseCsv (to_csv df) = some (headerRecord :: df.map rowRecord) ∧
    headerRecord = ["Query".data, "Business Name".data, "Address".data,
      "Phone".data, "Website".data, "Rating".data, "Total Reviews".data] ∧
    (headerRecord :: df.map rowRecord).length = df.length + 1 ∧
    (df.map rowRecord).map (fun rec => rec.map reparseCell) =
      df.map fun r => (rowCells r).map csvCoerce := by
  refine ⟨parseCsv_to_csv df, rfl, by simp, ?_⟩
  rw [List.map_map]
  apply List.map_congr_left
  intro r hr
  show (rowRecord r).map reparseCell = (rowCells r).map csvCoerce
  rw [rowRecord, List.map_map]
  apply List.map_congr_left
  intro cell hcell
  exact reparseCell_cellToCsv cell (h r hr cell hcell)

/-- Claim C7 witness: a row containing a comma, quotes and a newline
in its cells, a missing phone, a decimal rating and an integer review
count. -/
theorem to_csv_roundtrip_witness :
    (∀ r ∈ wDf7, scalarRow r) ∧
    (parseCsv (to_csv wDf7) = some (headerRecord :: wDf7.map rowRecord) ∧
     headerRecord = ["Query".data, "Business Name".data, "Address".data,
       "Phone".data, "Website".data, "Rating".data, "Total Reviews".data] ∧
     (headerRecord :: wDf7.map rowRecord).length = wDf7.length + 1 ∧
     (wDf7.map rowRecord).map (fun rec => rec.map reparseCell) =
       wDf7.map fun r => (rowCells r).map csvCoerce) := by
  have hs : ∀ r ∈ wDf7, scalarRow r := by
    intro r hr
    simp only [wDf7, List.mem_singleton] at hr
    subst hr
    intro cell hc
    simp only [rowCells, List.mem_cons, List.not_mem_nil, or_false] at hc
    rcases hc with rfl | rfl | rfl | rfl | rfl | rfl | rfl <;>
      first
      | exact trivial
      | exact decExp_isSome_of ((9 : ℚ) / 2) 1 ((9 : ℚ) / 2).pos (by norm_num)
      | exact decExp_isSome_of (27 : ℚ) 0 (Nat.zero_le _) (by norm_num)
  exact ⟨hs, to_csv_roundtrip wDf7 hs⟩

end SerpAudit
